/-
Verification of the bounding-volume core of OpenVRML 0.14.3
(src/libopenvrml/openvrml/bounding_volume.cpp), shallowly embedded over ℝ.

Floating-point values are modelled as exact reals; FLT_MAX is modelled by its
exact value (2 - 2^-23) * 2^127 = 2^128 - 2^104.  The tolerance comparison
fequal from private.h (not part of the provided sources) is modelled, per the
spec, as exact equality in the exact-arithmetic model.
-/
import Mathlib

set_option maxHeartbeats 1000000

noncomputable section

namespace openvrml

/-- Modelled from the spec: the point type (vec3f of basetypes.h, not among
the provided sources) has three floating-point components, here exact reals. -/
@[ext]
structure vec3f where
  x : ℝ
  y : ℝ
  z : ℝ

/-- Modelled from the spec: componentwise vector addition of vec3f. -/
def vadd (a b : vec3f) : vec3f := ⟨a.x + b.x, a.y + b.y, a.z + b.z⟩

/-- Modelled from the spec: componentwise vector subtraction of vec3f. -/
def vsub (a b : vec3f) : vec3f := ⟨a.x - b.x, a.y - b.y, a.z - b.z⟩

/-- Modelled from the spec: scalar multiplication of vec3f. -/
def smul3 (k : ℝ) (v : vec3f) : vec3f := ⟨k * v.x, k * v.y, k * v.z⟩

/-- Modelled from the spec: the dot product of vec3f. -/
def dot3 (a b : vec3f) : ℝ := a.x * b.x + a.y * b.y + a.z * b.z

/-- Modelled from the spec: vec3f::length, the Euclidean length. -/
def length3 (v : vec3f) : ℝ := Real.sqrt (dot3 v v)

/-- Euclidean distance between two points, i.e. the quantity `dn` computed by
the source as sqrt(xn*xn + yn*yn + zn*zn) for the difference vector. -/
def dist3 (a b : vec3f) : ℝ := length3 (vsub b a)

/-- FLT_MAX, the sentinel radius marking a maximized bounding sphere
(std::numeric_limits of float, max()), as an exact real. -/
def flt_max : ℝ := 2 ^ 128 - 2 ^ 104

/-- Modelled from the spec: fequal of private.h (not among the provided
sources) is a tolerance-based floating-point equality; in the
exact-arithmetic model the tolerance is zero, so it is exact equality. -/
abbrev fequal (a b : ℝ) : Prop := a = b

/-- The bounding sphere: a center and a radius, where radius -1 is the
"unset" sentinel and radius = flt_max is the "maximized" sentinel. -/
@[ext]
structure bounding_sphere where
  center : vec3f
  radius : ℝ

/-- bounding_sphere::maximized: the radius equals FLT_MAX. -/
abbrev maximized (s : bounding_sphere) : Prop := s.radius = flt_max

/-- bounding_sphere::maximize: set the radius to FLT_MAX and the center to the
origin. -/
def maximize (_s : bounding_sphere) : bounding_sphere :=
  { center := ⟨0, 0, 0⟩, radius := flt_max }

/-- The default-constructed bounding sphere: radius -1 (unset), center at the
origin (vec3f default-constructs to zero). -/
def initial_sphere : bounding_sphere := { center := ⟨0, 0, 0⟩, radius := -1 }

/- ------------------------------------------------------------------ -/
/- Basic facts about the modelled vector operations.                   -/
/- ------------------------------------------------------------------ -/

theorem dot3_self_nonneg (v : vec3f) : 0 ≤ dot3 v v := by
  unfold dot3; nlinarith [sq_nonneg v.x, sq_nonneg v.y, sq_nonneg v.z]

theorem length3_nonneg (v : vec3f) : 0 ≤ length3 v := Real.sqrt_nonneg _

theorem dist3_nonneg (a b : vec3f) : 0 ≤ dist3 a b := Real.sqrt_nonneg _

theorem dist3_self (a : vec3f) : dist3 a a = 0 := by
  unfold dist3 length3 dot3 vsub
  simp

theorem dist3_comm (a b : vec3f) : dist3 a b = dist3 b a := by
  unfold dist3 length3 dot3 vsub
  ring_nf

theorem length3_smul (k : ℝ) (v : vec3f) :
    length3 (smul3 k v) = |k| * length3 v := by
  unfold length3 smul3 dot3
  have h : k * v.x * (k * v.x) + k * v.y * (k * v.y) + k * v.z * (k * v.z)
      = k ^ 2 * (v.x * v.x + v.y * v.y + v.z * v.z) := by ring
  rw [h, Real.sqrt_mul (sq_nonneg k), Real.sqrt_sq_eq_abs]

theorem dot3_cauchy_schwarz (u v : vec3f) :
    dot3 u v ≤ length3 u * length3 v := by
  have hsq : (dot3 u v) ^ 2 ≤ dot3 u u * dot3 v v := by
    unfold dot3
    nlinarith [sq_nonneg (u.x * v.y - u.y * v.x),
      sq_nonneg (u.x * v.z - u.z * v.x), sq_nonneg (u.y * v.z - u.z * v.y)]
  have h1 : dot3 u v ≤ |dot3 u v| := le_abs_self _
  have h2 : |dot3 u v| = Real.sqrt ((dot3 u v) ^ 2) := (Real.sqrt_sq_eq_abs _).symm
  have h3 : Real.sqrt ((dot3 u v) ^ 2) ≤ Real.sqrt (dot3 u u * dot3 v v) :=
    Real.sqrt_le_sqrt hsq
  have h4 : Real.sqrt (dot3 u u * dot3 v v) = length3 u * length3 v := by
    unfold length3
    exact Real.sqrt_mul (dot3_self_nonneg u) _
  linarith [h1, h2 ▸ h1, h3, h4 ▸ h3]

theorem length3_add_le (u v : vec3f) :
    length3 (vadd u v) ≤ length3 u + length3 v := by
  have hL : 0 ≤ length3 u + length3 v :=
    add_nonneg (length3_nonneg u) (length3_nonneg v)
  have hdot : dot3 (vadd u v) (vadd u v)
      = dot3 u u + 2 * dot3 u v + dot3 v v := by
    unfold dot3 vadd; ring
  have hu : length3 u ^ 2 = dot3 u u := Real.sq_sqrt (dot3_self_nonneg u)
  have hv : length3 v ^ 2 = dot3 v v := Real.sq_sqrt (dot3_self_nonneg v)
  have hcs := dot3_cauchy_schwarz u v
  have hle : dot3 (vadd u v) (vadd u v) ≤ (length3 u + length3 v) ^ 2 := by
    rw [hdot]; nlinarith [hcs, hu, hv]
  calc length3 (vadd u v) = Real.sqrt (dot3 (vadd u v) (vadd u v)) := rfl
    _ ≤ Real.sqrt ((length3 u + length3 v) ^ 2) := Real.sqrt_le_sqrt hle
    _ = length3 u + length3 v := Real.sqrt_sq hL

theorem dist3_triangle (a b c : vec3f) :
    dist3 a c ≤ dist3 a b + dist3 b c := by
  have h : vsub c a = vadd (vsub b a) (vsub c b) := by
    unfold vsub vadd; ext <;> ring
  unfold dist3
  rw [h]
  exact length3_add_le _ _

theorem length3_sub_le (a b : vec3f) :
    length3 (vsub a b) ≤ length3 a + length3 b := by
  have h : vsub a b = vadd a (smul3 (-1) b) := by
    unfold vsub vadd smul3; ext <;> ring
  rw [h]
  calc length3 (vadd a (smul3 (-1) b))
      ≤ length3 a + length3 (smul3 (-1) b) := length3_add_le _ _
    _ = length3 a + length3 b := by rw [length3_smul]; norm_num

theorem flt_max_pos : (0 : ℝ) < flt_max := by unfold flt_max; norm_num

/- ------------------------------------------------------------------ -/
/- The operations of bounding_sphere (bounding_volume.cpp).            -/
/- ------------------------------------------------------------------ -/

/-- bounding_sphere::extend(const vec3f &): grow the sphere to enclose a
point (bounding_volume.cpp lines 342-392).  The difference vector
(xn, yn, zn) is `vsub p s.center`, its length `dn` is `dist3 s.center p`,
and the new center x0 + xn * tmp is `vadd s.center (smul3 tmp (vsub p
s.center))`. -/
def extend_point (s : bounding_sphere) (p : vec3f) : bounding_sphere :=
  if maximized s then s
  else if s.radius = -1 then { center := p, radius := 0 }
  else
    let dn := dist3 s.center p
    if fequal dn 0 then s
    else if dn < s.radius then s
    else
      let cr := (dn + s.radius) / 2
      let tmp := (cr - s.radius) / dn
      { center := vadd s.center (smul3 tmp (vsub p s.center)), radius := cr }

/-- bounding_sphere::extend(const bounding_sphere &): grow the sphere to
enclose another sphere (bounding_volume.cpp lines 409-468). -/
def extend_sphere (s b : bounding_sphere) : bounding_sphere :=
  if maximized s then s
  else if maximized b then maximize s
  else if b.radius = -1 then s
  else if s.radius = -1 then b
  else
    let dn := dist3 s.center b.center
    if fequal dn 0 then s
    else if dn + b.radius < s.radius then s
    else if dn + s.radius < b.radius then b
    else
      let cr := (dn + s.radius + b.radius) / 2
      let tmp := (cr - s.radius) / dn
      { center := vadd s.center (smul3 tmp (vsub b.center s.center)),
        radius := cr }

/-- Modelled from the spec: the axis-aligned bounding box carries min/max
corner points (its class members are declared in bounding_volume.h, not
among the provided sources; its behavior in bounding_volume.cpp is an
unimplemented placeholder). -/
structure axis_aligned_bounding_box where
  bmin : vec3f
  bmax : vec3f

/-- bounding_sphere::extend(const axis_aligned_bounding_box &): the body is
empty in the source (bounding_volume.cpp lines 401-402), so the sphere is
returned unchanged. -/
def extend_box (s : bounding_sphere) (_b : axis_aligned_bounding_box) :
    bounding_sphere := s

/-- The two concrete variants of the bounding_volume class hierarchy. -/
inductive bounding_volume_t where
  | sph (s : bounding_sphere)
  | box (b : axis_aligned_bounding_box)

/-- bounding_sphere::extend(const bounding_volume &): dynamic_cast dispatch
to the sphere or box overload (bounding_volume.cpp lines 323-335). -/
def extend_volume (s : bounding_sphere) : bounding_volume_t → bounding_sphere
  | .sph b => extend_sphere s b
  | .box b => extend_box s b

/-- The linear scan of bounding_sphere::enclose that finds the point with the
minimum value of one coordinate, with a strict comparison so that the first
encountered extremal point wins. -/
def scan_min (f : vec3f → ℝ) (p : vec3f) (l : List vec3f) : vec3f :=
  l.foldl (fun best q => if f q < f best then q else best) p

/-- The linear scan of bounding_sphere::enclose that finds the point with the
maximum value of one coordinate, with a strict comparison so that the first
encountered extremal point wins. -/
def scan_max (f : vec3f → ℝ) (p : vec3f) (l : List vec3f) : vec3f :=
  l.foldl (fun best q => if f q > f best then q else best) p

/-- bounding_sphere::enclose (bounding_volume.cpp lines 477-540): reset to
the default (unset) sphere; if the point list is empty stop; otherwise find
the six per-axis extremal points, pick the extremal pair whose full 3-D
squared span is largest (axis order x, then y if strictly larger, then z if
strictly larger), seed the sphere with the midpoint of that pair as center
and the distance from that midpoint to the origin as radius, then extend by
every point in order. -/
def enclose (points : List vec3f) : bounding_sphere :=
  match points with
  | [] => initial_sphere
  | p :: rest =>
    let min0 := scan_min vec3f.x p rest
    let min1 := scan_min vec3f.y p rest
    let min2 := scan_min vec3f.z p rest
    let max0 := scan_max vec3f.x p rest
    let max1 := scan_max vec3f.y p rest
    let max2 := scan_max vec3f.z p rest
    let dx := dot3 (vsub max0 min0) (vsub max0 min0)
    let dy := dot3 (vsub max1 min1) (vsub max1 min1)
    let dz := dot3 (vsub max2 min2) (vsub max2 min2)
    let pick1 : vec3f × vec3f × ℝ :=
      if dy > dx then (min1, max1, dy) else (min0, max0, dx)
    let pick2 : vec3f × vec3f × ℝ :=
      if dz > pick1.2.2 then (min2, max2, dz) else pick1
    let c := smul3 (1 / 2) (vadd pick2.1 pick2.2.1)
    let r := Real.sqrt (dot3 c c)
    (p :: rest).foldl extend_point { center := c, radius := r }

/-- Modelled from the spec: mat4f (basetypes.h, not among the provided
sources) is a 4x4 floating-point matrix; field mij is row i, column j. -/
structure mat4f where
  m00 : ℝ
  m01 : ℝ
  m02 : ℝ
  m03 : ℝ
  m10 : ℝ
  m11 : ℝ
  m12 : ℝ
  m13 : ℝ
  m20 : ℝ
  m21 : ℝ
  m22 : ℝ
  m23 : ℝ
  m30 : ℝ
  m31 : ℝ
  m32 : ℝ
  m33 : ℝ

/-- Modelled from the spec: application of a mat4f to a point (the vec3f
`*=` operator, not among the provided sources) applies the affine transform
to the point directly; row-vector convention with the translation in row 3,
consistent with the source reading column 0 (t[0][0], t[1][0], t[2][0]) as
an axis scale. -/
def apply_mat (t : mat4f) (p : vec3f) : vec3f :=
  ⟨p.x * t.m00 + p.y * t.m10 + p.z * t.m20 + t.m30,
   p.x * t.m01 + p.y * t.m11 + p.z * t.m21 + t.m31,
   p.x * t.m02 + p.y * t.m12 + p.z * t.m22 + t.m32⟩

/-- bounding_sphere::ortho_transform (bounding_volume.cpp lines 608-619):
no-op if maximized or unset; otherwise transform the center and scale the
radius by the length of the first column vector. -/
def ortho_transform (s : bounding_sphere) (t : mat4f) : bounding_sphere :=
  if maximized s then s
  else if s.radius = -1 then s
  else
    { center := apply_mat t s.center,
      radius := s.radius * length3 ⟨t.m00, t.m10, t.m20⟩ }

/-- bounding_sphere::transform (bounding_volume.cpp lines 626-645): no-op if
maximized or unset; otherwise transform the center and scale the radius by
the largest of the three column-vector lengths. -/
def transform (s : bounding_sphere) (t : mat4f) : bounding_sphere :=
  if maximized s then s
  else if s.radius = -1 then s
  else
    let scale_x := length3 ⟨t.m00, t.m10, t.m20⟩
    let scale_y := length3 ⟨t.m01, t.m11, t.m21⟩
    let scale_z := length3 ⟨t.m02, t.m12, t.m22⟩
    let max_scale := if scale_y > scale_x then scale_y else scale_x
    let max_scale := if scale_z > max_scale then scale_z else max_scale
    { center := apply_mat t s.center, radius := s.radius * max_scale }

/-- Modelled from the spec: a frustum plane (Nx, Ny, Nz, D) with
N · p = D for points p on the plane. -/
structure plane4 where
  nx : ℝ
  ny : ℝ
  nz : ℝ
  dd : ℝ

/-- Modelled from the spec: the frustum type (frustum.h, not among the
provided sources) holds z_near and z_far distances and the four side
planes. -/
structure frustum where
  z_near : ℝ
  z_far : ℝ
  top_plane : plane4
  bot_plane : plane4
  left_plane : plane4
  right_plane : plane4

/-- The intersection result enumeration of bounding_volume; `partial_`
models the source's `partial` member. -/
inductive intersection where
  | inside
  | outside
  | partial_
deriving DecidableEq

/-- sphere_plane_distance (bounding_volume.cpp lines 232-243): the signed
distance N · c - D from the sphere's center to a plane. -/
def sphere_plane_distance (bs : bounding_sphere) (pl : plane4) : ℝ :=
  pl.nx * bs.center.x + pl.ny * bs.center.y + pl.nz * bs.center.z - pl.dd

/-- One plane test of intersect_frustum: given the sphere radius, the signed
distance d of the center to the plane, and the code accumulated by the
previous planes, return outside if d < -radius, mark partial if d < radius,
and otherwise keep the accumulated code.  The source repeats this
three-line pattern for each of the six planes with an early return on
outside; propagating an outside result unchanged through the remaining
steps is equivalent to that early return, since the source never updates
the code after returning outside. -/
def plane_test (radius d : ℝ) : intersection → intersection
  | .outside => .outside
  | code =>
    if d < -radius then .outside
    else if d < radius then .partial_
    else code

/-- bounding_sphere::intersect_frustum (bounding_volume.cpp lines 262-316):
partial if maximized or unset; otherwise test the near and far planes with
the axis-aligned form and the four side planes with the dot-product form,
in the source's order (near, far, top, bottom, left, right), starting from
inside. -/
def intersect_frustum (s : bounding_sphere) (f : frustum) : intersection :=
  if maximized s then .partial_
  else if s.radius = -1 then .partial_
  else
    plane_test s.radius (sphere_plane_distance s f.right_plane)
      (plane_test s.radius (sphere_plane_distance s f.left_plane)
        (plane_test s.radius (sphere_plane_distance s f.bot_plane)
          (plane_test s.radius (sphere_plane_distance s f.top_plane)
            (plane_test s.radius (s.center.z - (-f.z_far))
              (plane_test s.radius ((-f.z_near) - s.center.z)
                .inside)))))

/-- The public mutating operations of bounding_sphere, for stating temporal
properties over operation sequences. -/
inductive op where
  | extend_pt (p : vec3f)
  | extend_sph (b : bounding_sphere)
  | extend_vol (v : bounding_volume_t)
  | encl (pts : List vec3f)
  | xform (m : mat4f)
  | ortho (m : mat4f)
  | maximize

/-- Apply one public operation to a bounding sphere. -/
def apply_op (s : bounding_sphere) : op → bounding_sphere
  | .extend_pt p => extend_point s p
  | .extend_sph b => extend_sphere s b
  | .extend_vol v => extend_volume s v
  | .encl pts => enclose pts
  | .xform m => transform s m
  | .ortho m => ortho_transform s m
  | .maximize => maximize s

/-- Run a sequence of public operations from a starting sphere. -/
def run (s : bounding_sphere) (l : List op) : bounding_sphere :=
  l.foldl apply_op s

/-- Whether an operation is the (resetting) enclose operation. -/
def is_enclose : op → Bool
  | .encl _ => true
  | _ => false

/- ------------------------------------------------------------------ -/
/- Auxiliary facts.                                                    -/
/- ------------------------------------------------------------------ -/

theorem neg_one_ne_flt_max : (-1 : ℝ) ≠ flt_max := by
  unfold flt_max; norm_num

theorem unset_not_maximized (s : bounding_sphere) (h : s.radius = -1) :
    ¬ maximized s := by
  rw [maximized, h]; exact neg_one_ne_flt_max

/- ------------------------------------------------------------------ -/
/- C8: degenerate spheres in intersect_frustum.                        -/
/- ------------------------------------------------------------------ -/

/-- C8: for every frustum, intersect_frustum on a maximized bounding sphere
returns partial, and on an unset bounding sphere (radius sentinel -1)
returns partial. -/
theorem c8_intersect_frustum_degenerate (f : frustum) (s : bounding_sphere) :
    (maximized s → intersect_frustum s f = .partial_) ∧
    (s.radius = -1 → intersect_frustum s f = .partial_) := by
  constructor
  · intro h
    unfold intersect_frustum
    rw [if_pos h]
  · intro h
    unfold intersect_frustum
    rw [if_neg (unset_not_maximized s h), if_pos h]

/-- C8 witness: an unset sphere tested against a concrete frustum yields
partial. -/
theorem c8_witness :
    intersect_frustum { center := ⟨0, 0, 0⟩, radius := -1 }
      { z_near := 1, z_far := 10, top_plane := ⟨0, 1, 0, -3⟩,
        bot_plane := ⟨0, -1, 0, -3⟩, left_plane := ⟨1, 0, 0, -3⟩,
        right_plane := ⟨-1, 0, 0, -3⟩ } = .partial_ :=
  (c8_intersect_frustum_degenerate _ _).2 rfl

/- ------------------------------------------------------------------ -/
/- C10: extending a sphere by an axis-aligned box is a no-op.          -/
/- ------------------------------------------------------------------ -/

/-- C10: extending a bounding sphere by an axis-aligned bounding box, either
directly or through the polymorphic dispatch, leaves the sphere completely
unchanged; consequently the resulting sphere need not enclose the box (a
concrete sphere/box pair leaves the box's max corner strictly outside). -/
theorem c10_extend_box_noop :
    (∀ (s : bounding_sphere) (b : axis_aligned_bounding_box),
        extend_box s b = s ∧ extend_volume s (.box b) = s) ∧
    ∃ (s : bounding_sphere) (b : axis_aligned_bounding_box),
      (extend_volume s (.box b)).radius <
        dist3 (extend_volume s (.box b)).center b.bmax := by
  refine ⟨fun s b => ⟨rfl, rfl⟩, ⟨⟨⟨0, 0, 0⟩, 0⟩, ⟨⟨0, 0, 0⟩, ⟨3, 0, 0⟩⟩, ?_⟩⟩
  show (0 : ℝ) < dist3 ⟨0, 0, 0⟩ ⟨3, 0, 0⟩
  unfold dist3 length3 dot3 vsub
  simp only
  rw [show (3 - 0 : ℝ) * (3 - 0) + (0 - 0) * (0 - 0) + (0 - 0) * (0 - 0)
    = 3 * 3 by norm_num]
  rw [Real.sqrt_mul_self (by norm_num : (0 : ℝ) ≤ 3)]
  norm_num

/- ------------------------------------------------------------------ -/
/- C5: the case analysis of extend(point).                             -/
/- ------------------------------------------------------------------ -/

/-- C5: extend(point) behaves per case: a maximized sphere is unchanged; an
unset sphere becomes center P, radius 0; if the distance d from the center
to P is nonzero and at most the radius the sphere is unchanged; otherwise
the new radius is (d + r) / 2 and the new center is offset from the old
center toward P by the fraction (new_radius - r) / d. -/
theorem c5_extend_point_cases (s : bounding_sphere) (p : vec3f) :
    (maximized s → extend_point s p = s) ∧
    (s.radius = -1 → extend_point s p = { center := p, radius := 0 }) ∧
    (dist3 s.center p ≠ 0 → dist3 s.center p ≤ s.radius →
      extend_point s p = s) ∧
    (¬ maximized s → s.radius ≠ -1 → dist3 s.center p ≠ 0 →
      s.radius < dist3 s.center p →
      extend_point s p =
        { center := vadd s.center
            (smul3 (((dist3 s.center p + s.radius) / 2 - s.radius) /
              dist3 s.center p) (vsub p s.center)),
          radius := (dist3 s.center p + s.radius) / 2 }) := by
  refine ⟨?_, ?_, ?_, ?_⟩
  · intro h
    unfold extend_point
    rw [if_pos h]
  · intro h
    unfold extend_point
    rw [if_neg (unset_not_maximized s h), if_pos h]
  · intro hne hle
    unfold extend_point
    simp only []
    split_ifs with h1 h2 h3
    · rfl
    · exfalso
      have h0 : 0 ≤ dist3 s.center p := dist3_nonneg _ _
      have : (0 : ℝ) < dist3 s.center p := lt_of_le_of_ne h0 (Ne.symm hne)
      rw [h2] at hle
      linarith
    · rfl
    · -- the tangent case: d = radius exactly, the merge formula reproduces s
      have heq : dist3 s.center p = s.radius := le_antisymm hle (not_lt.1 h3)
      have hfrac : ((dist3 s.center p + s.radius) / 2 - s.radius) /
          dist3 s.center p = 0 := by
        rw [heq]; field_simp
      ext
      · show s.center.x + _ * (p.x - s.center.x) = s.center.x
        rw [hfrac]; ring
      · show s.center.y + _ * (p.y - s.center.y) = s.center.y
        rw [hfrac]; ring
      · show s.center.z + _ * (p.z - s.center.z) = s.center.z
        rw [hfrac]; ring
      · show (dist3 s.center p + s.radius) / 2 = s.radius
        rw [heq]; ring
  · intro hm hr hne hlt
    unfold extend_point
    simp only []
    rw [if_neg hm, if_neg hr, if_neg hne, if_neg (not_lt.2 (le_of_lt hlt))]

/-- C5 witness: extending an unset sphere by the point (1, 2, 3) yields that
point as center with radius 0. -/
theorem c5_witness :
    extend_point { center := ⟨0, 0, 0⟩, radius := -1 } ⟨1, 2, 3⟩
      = { center := ⟨1, 2, 3⟩, radius := 0 } :=
  (c5_extend_point_cases _ _).2.1 rfl

/- ------------------------------------------------------------------ -/
/- C6: the case analysis of extend(sphere).                            -/
/- ------------------------------------------------------------------ -/

/-- C6: extend(sphere) on A with argument B behaves per case: if A is
maximized A is unchanged; if B is maximized A becomes maximized; if B is
unset A is unchanged; if A is unset A becomes a copy of B; if the center
distance d is nonzero and d + B.radius ≤ A.radius then A is unchanged; if d
is nonzero and d + A.radius ≤ B.radius then A becomes equal to B. -/
theorem c6_extend_sphere_cases (a b : bounding_sphere) :
    (maximized a → extend_sphere a b = a) ∧
    (maximized b → maximized (extend_sphere a b)) ∧
    (b.radius = -1 → extend_sphere a b = a) ∧
    (a.radius = -1 → ¬ maximized b → b.radius ≠ -1 →
      extend_sphere a b = b) ∧
    (¬ maximized a → ¬ maximized b → a.radius ≠ -1 → b.radius ≠ -1 →
      dist3 a.center b.center ≠ 0 →
      dist3 a.center b.center + b.radius ≤ a.radius →
      extend_sphere a b = a) ∧
    (¬ maximized a → ¬ maximized b → a.radius ≠ -1 → b.radius ≠ -1 →
      dist3 a.center b.center ≠ 0 →
      dist3 a.center b.center + a.radius ≤ b.radius →
      extend_sphere a b = b) := by
  refine ⟨?_, ?_, ?_, ?_, ?_, ?_⟩
  · intro h
    unfold extend_sphere
    rw [if_pos h]
  · intro h
    unfold extend_sphere
    by_cases hma : maximized a
    · rw [if_pos hma]; exact hma
    · rw [if_neg hma, if_pos h]; rfl
  · intro h
    unfold extend_sphere
    by_cases hma : maximized a
    · rw [if_pos hma]
    · rw [if_neg hma, if_neg (unset_not_maximized b h), if_pos h]
  · intro ha hmb hb
    unfold extend_sphere
    rw [if_neg (unset_not_maximized a ha), if_neg hmb, if_neg hb, if_pos ha]
  · intro hma hmb ha hb hdn hle
    have hd0 : 0 < dist3 a.center b.center :=
      lt_of_le_of_ne (dist3_nonneg _ _) (Ne.symm hdn)
    unfold extend_sphere
    simp only []
    split_ifs with h1 h2
    · rfl
    · exfalso
      have heq : dist3 a.center b.center + b.radius = a.radius :=
        le_antisymm hle (not_lt.1 h1)
      linarith
    · -- equality case d + B.radius = A.radius: the merge formula yields A
      have heq : dist3 a.center b.center + b.radius = a.radius :=
        le_antisymm hle (not_lt.1 h1)
      have hcr : (dist3 a.center b.center + a.radius + b.radius) / 2
          = a.radius := by linarith
      have ht : ((dist3 a.center b.center + a.radius + b.radius) / 2
          - a.radius) / dist3 a.center b.center = 0 := by
        rw [hcr]; simp
      ext
      · show a.center.x + _ * (b.center.x - a.center.x) = a.center.x
        rw [ht]; ring
      · show a.center.y + _ * (b.center.y - a.center.y) = a.center.y
        rw [ht]; ring
      · show a.center.z + _ * (b.center.z - a.center.z) = a.center.z
        rw [ht]; ring
      · exact hcr
  · intro hma hmb ha hb hdn hle
    have hd0 : 0 < dist3 a.center b.center :=
      lt_of_le_of_ne (dist3_nonneg _ _) (Ne.symm hdn)
    unfold extend_sphere
    simp only []
    split_ifs with h1 h2
    · exfalso; linarith
    · rfl
    · -- equality case d + A.radius = B.radius: the merge formula yields B
      have heq : dist3 a.center b.center + a.radius = b.radius :=
        le_antisymm hle (not_lt.1 h2)
      have hcr : (dist3 a.center b.center + a.radius + b.radius) / 2
          = b.radius := by linarith
      have ht : ((dist3 a.center b.center + a.radius + b.radius) / 2
          - a.radius) / dist3 a.center b.center = 1 := by
        rw [hcr, ← heq]
        field_simp
      ext
      · show a.center.x + _ * (b.center.x - a.center.x) = b.center.x
        rw [ht]; ring
      · show a.center.y + _ * (b.center.y - a.center.y) = b.center.y
        rw [ht]; ring
      · show a.center.z + _ * (b.center.z - a.center.z) = b.center.z
        rw [ht]; ring
      · exact hcr

/-- C6 witness: extending a set sphere by an unset sphere leaves it
unchanged. -/
theorem c6_witness :
    extend_sphere { center := ⟨1, 2, 3⟩, radius := 5 }
      { center := ⟨0, 0, 0⟩, radius := -1 }
      = { center := ⟨1, 2, 3⟩, radius := 5 } :=
  (c6_extend_sphere_cases _ _).2.2.1 rfl

/- ------------------------------------------------------------------ -/
/- C1: unit sphere at the origin against a near=1, far=10 frustum.     -/
/- ------------------------------------------------------------------ -/

theorem plane_test_keep (r d : ℝ) (code : intersection)
    (h1 : ¬ d < -r) (h2 : ¬ d < r) : plane_test r d code = code := by
  cases code
  · show (if d < -r then _ else if d < r then _ else _) = _
    rw [if_neg h1, if_neg h2]
  · rfl
  · show (if d < -r then _ else if d < r then _ else _) = _
    rw [if_neg h1, if_neg h2]

theorem plane_test_partial_stay (r d : ℝ) (h1 : ¬ d < -r) :
    plane_test r d .partial_ = .partial_ := by
  show (if d < -r then _ else if d < r then _ else _) = _
  rw [if_neg h1]
  by_cases h2 : d < r
  · rw [if_pos h2]
  · rw [if_neg h2]

theorem plane_test_inside_straddles (r d : ℝ) (h1 : ¬ d < -r)
    (h2 : d < r) : plane_test r d .inside = .partial_ := by
  show (if d < -r then _ else if d < r then _ else _) = _
  rw [if_neg h1, if_pos h2]

/-- C1 (amended): a sphere centered at the origin with radius 1 is tangent
to the near plane of a frustum with z_near = 1 (the signed distance of the
center to the near plane is exactly -radius), and since the outside test is
strict, intersect_frustum returns partial, not outside, whenever the four
side planes have signed distance greater than 2 from the origin. -/
theorem c1_intersect_frustum_tangent (f : frustum)
    (hn : f.z_near = 1) (hf : f.z_far = 10)
    (ht : 2 < sphere_plane_distance { center := ⟨0, 0, 0⟩, radius := 1 }
      f.top_plane)
    (hb : 2 < sphere_plane_distance { center := ⟨0, 0, 0⟩, radius := 1 }
      f.bot_plane)
    (hl : 2 < sphere_plane_distance { center := ⟨0, 0, 0⟩, radius := 1 }
      f.left_plane)
    (hr : 2 < sphere_plane_distance { center := ⟨0, 0, 0⟩, radius := 1 }
      f.right_plane) :
    intersect_frustum { center := ⟨0, 0, 0⟩, radius := 1 } f
      = .partial_ := by
  have hmax : ¬ maximized
      ({ center := ⟨0, 0, 0⟩, radius := 1 } : bounding_sphere) := by
    show (1 : ℝ) ≠ flt_max
    unfold flt_max; norm_num
  have hru : ({ center := ⟨0, 0, 0⟩, radius := 1 } : bounding_sphere).radius
      ≠ -1 := by
    show (1 : ℝ) ≠ -1
    norm_num
  unfold intersect_frustum
  rw [if_neg hmax, if_neg hru]
  simp only []
  rw [hn, hf]
  rw [plane_test_inside_straddles 1 (-(1 : ℝ) - 0) (by norm_num)
      (by norm_num),
    plane_test_partial_stay 1 ((0 : ℝ) - -10) (by norm_num),
    plane_test_partial_stay _ _ (by linarith),
    plane_test_partial_stay _ _ (by linarith),
    plane_test_partial_stay _ _ (by linarith),
    plane_test_partial_stay _ _ (by linarith)]

/-- C1 counterexample: at a concrete frustum with z_near = 1, z_far = 10
and all four side planes at signed distance 3 > 2 from the origin, the
sphere at the origin with radius 1 yields partial, not outside as the claim
states. -/
theorem c1_counterexample :
    (2 < sphere_plane_distance { center := ⟨0, 0, 0⟩, radius := 1 }
      (⟨0, 1, 0, -3⟩ : plane4)) ∧
    (2 < sphere_plane_distance { center := ⟨0, 0, 0⟩, radius := 1 }
      (⟨0, -1, 0, -3⟩ : plane4)) ∧
    (2 < sphere_plane_distance { center := ⟨0, 0, 0⟩, radius := 1 }
      (⟨1, 0, 0, -3⟩ : plane4)) ∧
    (2 < sphere_plane_distance { center := ⟨0, 0, 0⟩, radius := 1 }
      (⟨-1, 0, 0, -3⟩ : plane4)) ∧
    intersect_frustum { center := ⟨0, 0, 0⟩, radius := 1 }
      { z_near := 1, z_far := 10, top_plane := ⟨0, 1, 0, -3⟩,
        bot_plane := ⟨0, -1, 0, -3⟩, left_plane := ⟨1, 0, 0, -3⟩,
        right_plane := ⟨-1, 0, 0, -3⟩ } ≠ .outside := by
  refine ⟨?_, ?_, ?_, ?_, ?_⟩
  · unfold sphere_plane_distance; norm_num
  · unfold sphere_plane_distance; norm_num
  · unfold sphere_plane_distance; norm_num
  · unfold sphere_plane_distance; norm_num
  · have hmax : ¬ maximized
        ({ center := ⟨0, 0, 0⟩, radius := 1 } : bounding_sphere) := by
      show (1 : ℝ) ≠ flt_max
      unfold flt_max; norm_num
    have hru : ({ center := ⟨0, 0, 0⟩, radius := 1 } : bounding_sphere).radius
        ≠ -1 := by
      show (1 : ℝ) ≠ -1
      norm_num
    have hres : intersect_frustum { center := ⟨0, 0, 0⟩, radius := 1 }
        { z_near := 1, z_far := 10, top_plane := ⟨0, 1, 0, -3⟩,
          bot_plane := ⟨0, -1, 0, -3⟩, left_plane := ⟨1, 0, 0, -3⟩,
          right_plane := ⟨-1, 0, 0, -3⟩ } = .partial_ := by
      unfold intersect_frustum
      rw [if_neg hmax, if_neg hru]
      simp only []
      rw [plane_test_inside_straddles 1 (-(1 : ℝ) - 0) (by norm_num)
          (by norm_num),
        plane_test_partial_stay 1 ((0 : ℝ) - -10) (by norm_num),
        plane_test_partial_stay _ _
          (by unfold sphere_plane_distance; simp only []; norm_num),
        plane_test_partial_stay _ _
          (by unfold sphere_plane_distance; simp only []; norm_num),
        plane_test_partial_stay _ _
          (by unfold sphere_plane_distance; simp only []; norm_num),
        plane_test_partial_stay _ _
          (by unfold sphere_plane_distance; simp only []; norm_num)]
    rw [hres]
    decide

/-- C1 witness for the amended theorem, at a concrete frustum whose side
planes are at signed distance 3 from the origin. -/
theorem c1_witness :
    intersect_frustum { center := ⟨0, 0, 0⟩, radius := 1 }
      { z_near := 1, z_far := 10, top_plane := ⟨0, 2, 0, -3⟩,
        bot_plane := ⟨0, -2, 0, -3⟩, left_plane := ⟨2, 0, 0, -3⟩,
        right_plane := ⟨-2, 0, 0, -3⟩ } = .partial_ :=
  c1_intersect_frustum_tangent _ rfl rfl
    (by unfold sphere_plane_distance; norm_num)
    (by unfold sphere_plane_distance; norm_num)
    (by unfold sphere_plane_distance; norm_num)
    (by unfold sphere_plane_distance; norm_num)

/- ------------------------------------------------------------------ -/
/- C2: enclose on a singleton list and on the empty list.              -/
/- ------------------------------------------------------------------ -/

/-- For a single point, enclose seeds the sphere at that point but takes the
distance from the point to the origin as the radius (the seeding quirk of
the source), and the subsequent extend pass leaves the sphere unchanged. -/
theorem enclose_singleton (P : vec3f) :
    enclose [P] = { center := P, radius := length3 P } := by
  unfold enclose
  simp only [scan_min, scan_max, List.foldl_nil, List.foldl_cons]
  rw [if_neg (lt_irrefl _)]
  simp only []
  rw [if_neg (lt_irrefl _)]
  have hc : smul3 (1 / 2) (vadd P P) = P := by
    unfold smul3 vadd; ext <;> (simp only []; ring)
  rw [hc]
  have hr : Real.sqrt (dot3 P P) = length3 P := rfl
  rw [hr]
  by_cases hm : maximized { center := P, radius := length3 P }
  · unfold extend_point
    rw [if_pos hm]
  · unfold extend_point
    rw [if_neg hm,
      if_neg (show ¬ length3 P = -1 from by
        have := length3_nonneg P; intro h; rw [h] at this; linarith),
      if_pos (show fequal (dist3 P P) 0 from dist3_self P)]

/-- C2 (amended): enclose on the one-element list [P] yields a sphere with
center P and radius equal to the distance from P to the origin (not radius
0, because the seed radius is taken from the midpoint's distance to the
origin); enclose on the empty list yields an unset sphere (radius -1). -/
theorem c2_enclose_single (P : vec3f) :
    enclose [P] = { center := P, radius := length3 P } ∧
    (enclose ([] : List vec3f)).radius = -1 :=
  ⟨enclose_singleton P, rfl⟩

/-- C2 counterexample: enclose [(3,0,0)] yields radius 3, not radius 0 as
the claim states. -/
theorem c2_counterexample :
    (enclose [⟨3, 0, 0⟩]).radius = 3 ∧ ((3 : ℝ) ≠ 0) := by
  constructor
  · rw [enclose_singleton]
    show length3 ⟨3, 0, 0⟩ = 3
    unfold length3 dot3
    simp only []
    rw [show (3 : ℝ) * 3 + 0 * 0 + 0 * 0 = 3 * 3 by norm_num]
    exact Real.sqrt_mul_self (by norm_num)
  · norm_num

/- ------------------------------------------------------------------ -/
/- C9: ortho_transform by a pure translation.                          -/
/- ------------------------------------------------------------------ -/

/-- A pure-translation matrix: identity rotation/scale block, translation v
in the translation slot. -/
def translation_mat (v : vec3f) : mat4f :=
  ⟨1, 0, 0, 0, 0, 1, 0, 0, 0, 0, 1, 0, v.x, v.y, v.z, 1⟩

/-- C9: for every set, non-maximized bounding sphere and every pure
translation, ortho_transform leaves the radius unchanged and shifts the
center by exactly the translation vector; and ortho_transform on a
maximized or unset sphere leaves it unchanged (for any matrix). -/
theorem c9_ortho_transform_translation (s : bounding_sphere) (v : vec3f)
    (m : mat4f) :
    (¬ maximized s → s.radius ≠ -1 →
      ortho_transform s (translation_mat v)
        = { center := vadd s.center v, radius := s.radius }) ∧
    (maximized s → ortho_transform s m = s) ∧
    (s.radius = -1 → ortho_transform s m = s) := by
  refine ⟨?_, ?_, ?_⟩
  · intro hm hr
    have hlen : length3 (⟨1, 0, 0⟩ : vec3f) = 1 := by
      unfold length3 dot3
      simp only []
      rw [show (1 : ℝ) * 1 + 0 * 0 + 0 * 0 = 1 by norm_num]
      exact Real.sqrt_one
    unfold ortho_transform
    rw [if_neg hm, if_neg hr]
    unfold translation_mat apply_mat
    simp only []
    ext
    · show s.center.x * 1 + s.center.y * 0 + s.center.z * 0 + v.x
        = s.center.x + v.x
      ring
    · show s.center.x * 0 + s.center.y * 1 + s.center.z * 0 + v.y
        = s.center.y + v.y
      ring
    · show s.center.x * 0 + s.center.y * 0 + s.center.z * 1 + v.z
        = s.center.z + v.z
      ring
    · show s.radius * length3 ⟨1, 0, 0⟩ = s.radius
      rw [hlen]; ring
  · intro hm
    unfold ortho_transform
    rw [if_pos hm]
  · intro hr
    unfold ortho_transform
    rw [if_neg (unset_not_maximized s hr), if_pos hr]

/-- C9 witness: translating the sphere of radius 4 at (1,2,3) by
(10,20,30) moves the center to (11,22,33) and keeps the radius. -/
theorem c9_witness :
    ortho_transform { center := ⟨1, 2, 3⟩, radius := 4 }
      (translation_mat ⟨10, 20, 30⟩)
      = { center := ⟨11, 22, 33⟩, radius := 4 } := by
  rw [(c9_ortho_transform_translation { center := ⟨1, 2, 3⟩, radius := 4 }
    ⟨10, 20, 30⟩ (translation_mat ⟨10, 20, 30⟩)).1
    (by show (4 : ℝ) ≠ flt_max; unfold flt_max; norm_num)
    (by show (4 : ℝ) ≠ -1; norm_num)]
  unfold vadd
  ext <;> norm_num

/- ------------------------------------------------------------------ -/
/- C7: the maximized sentinel over operation sequences.                -/
/- ------------------------------------------------------------------ -/

theorem apply_op_preserves_maximized (s : bounding_sphere) (o : op)
    (hm : maximized s) (ho : is_enclose o = false) :
    maximized (apply_op s o) := by
  cases o with
  | extend_pt p =>
    show maximized (extend_point s p)
    unfold extend_point
    rw [if_pos hm]
    exact hm
  | extend_sph b =>
    show maximized (extend_sphere s b)
    unfold extend_sphere
    rw [if_pos hm]
    exact hm
  | extend_vol v =>
    cases v with
    | sph b =>
      show maximized (extend_sphere s b)
      unfold extend_sphere
      rw [if_pos hm]
      exact hm
    | box b => exact hm
  | encl pts => simp [is_enclose] at ho
  | xform m =>
    show maximized (transform s m)
    unfold transform
    rw [if_pos hm]
    exact hm
  | ortho m =>
    show maximized (ortho_transform s m)
    unfold ortho_transform
    rw [if_pos hm]
    exact hm
  | maximize => rfl

theorem run_preserves_maximized (l : List op) :
    ∀ s : bounding_sphere, maximized s →
    (∀ o ∈ l, is_enclose o = false) → maximized (run s l) := by
  induction l with
  | nil => intro s hm _; exact hm
  | cons o l ih =>
    intro s hm hall
    show maximized (run (apply_op s o) l)
    exact ih _
      (apply_op_preserves_maximized s o hm (hall o (List.mem_cons_self o l)))
      (fun o' ho' => hall o' (List.mem_cons_of_mem _ ho'))

/-- C7 (amended): merging any sphere into a maximized sphere leaves it
unchanged (hence maximized); and after any operation sequence that calls
maximize and contains no subsequent enclose (the only non-maximizing reset
among the public operations), maximized() returns true.  The converse
direction of the original claim is refuted separately: extend alone can
drive the radius exactly onto the FLT_MAX sentinel. -/
theorem c7_maximized_absorbing (s b : bounding_sphere) (t1 t2 : List op)
    (henc : ∀ o ∈ t2, is_enclose o = false) :
    (maximized s → extend_sphere s b = s) ∧
    maximized (run s (t1 ++ op.maximize :: t2)) := by
  constructor
  · intro hm
    unfold extend_sphere
    rw [if_pos hm]
  · have hsplit : run s (t1 ++ op.maximize :: t2)
        = run (maximize (run s t1)) t2 := by
      unfold run
      rw [List.foldl_append]
      rfl
    rw [hsplit]
    exact run_preserves_maximized t2 _ rfl henc

/-- C7 counterexample: starting from the initial unset sphere, two extend
calls with points at the two ends of the float range produce a sphere whose
radius is exactly the FLT_MAX sentinel, so maximized() returns true even
though maximize() was never called. -/
theorem c7_counterexample :
    maximized (run initial_sphere
      [op.extend_pt ⟨-flt_max, 0, 0⟩, op.extend_pt ⟨flt_max, 0, 0⟩]) ∧
    ∀ o ∈ ([op.extend_pt ⟨-flt_max, 0, 0⟩,
      op.extend_pt ⟨flt_max, 0, 0⟩] : List op), o ≠ op.maximize := by
  constructor
  · have hstep1 : extend_point initial_sphere ⟨-flt_max, 0, 0⟩
        = { center := ⟨-flt_max, 0, 0⟩, radius := 0 } := by
      unfold extend_point
      rw [if_neg (unset_not_maximized initial_sphere rfl),
        if_pos (show initial_sphere.radius = -1 from rfl)]
    have hdn : dist3 (⟨-flt_max, 0, 0⟩ : vec3f) ⟨flt_max, 0, 0⟩
        = 2 * flt_max := by
      unfold dist3 length3 dot3 vsub
      simp only []
      rw [show (flt_max - -flt_max) * (flt_max - -flt_max)
          + (0 - 0) * (0 - 0) + (0 - 0) * (0 - 0)
        = (2 * flt_max) * (2 * flt_max) by ring]
      exact Real.sqrt_mul_self (by linarith [flt_max_pos])
    show maximized (extend_point (extend_point initial_sphere
      ⟨-flt_max, 0, 0⟩) ⟨flt_max, 0, 0⟩)
    rw [hstep1]
    unfold extend_point
    rw [if_neg (show ¬ maximized ({ center := ⟨-flt_max, 0, 0⟩, radius := 0 }
        : bounding_sphere) from by
      show (0 : ℝ) ≠ flt_max
      exact ne_of_lt flt_max_pos)]
    rw [if_neg (show ¬ (({ center := ⟨-flt_max, 0, 0⟩, radius := 0 }
        : bounding_sphere).radius = -1) from by
      show (0 : ℝ) ≠ -1
      norm_num)]
    simp only []
    rw [if_neg (show ¬ fequal (dist3 (⟨-flt_max, 0, 0⟩ : vec3f)
        ⟨flt_max, 0, 0⟩) 0 from by
      rw [hdn]
      have := flt_max_pos
      intro h
      simp only [fequal] at h
      linarith)]
    rw [if_neg (show ¬ (dist3 (⟨-flt_max, 0, 0⟩ : vec3f) ⟨flt_max, 0, 0⟩
        < ({ center := ⟨-flt_max, 0, 0⟩, radius := 0 }
            : bounding_sphere).radius) from by
      rw [hdn]
      show ¬ (2 * flt_max < 0)
      have := flt_max_pos
      linarith)]
    show (dist3 (⟨-flt_max, 0, 0⟩ : vec3f) ⟨flt_max, 0, 0⟩ + 0) / 2 = flt_max
    rw [hdn]
    ring
  · intro o ho
    simp only [List.mem_cons, List.not_mem_nil, or_false] at ho
    rcases ho with h | h <;> (subst h; intro hc; exact op.noConfusion hc)

/-- C7 witness for the amended theorem: maximize followed by an extend
leaves the sphere maximized. -/
theorem c7_witness :
    maximized (run initial_sphere
      ([] ++ op.maximize :: [op.extend_pt ⟨1, 1, 1⟩])) :=
  (c7_maximized_absorbing initial_sphere initial_sphere []
    [op.extend_pt ⟨1, 1, 1⟩] (by
      intro o ho
      simp only [List.mem_cons, List.not_mem_nil, or_false] at ho
      subst ho
      rfl)).2

/- ------------------------------------------------------------------ -/
/- C3: the two-sphere merge formula and its minimality.                -/
/- ------------------------------------------------------------------ -/

theorem dist3_vadd_smul (a : vec3f) (k : ℝ) (w : vec3f) :
    dist3 a (vadd a (smul3 k w)) = |k| * length3 w := by
  unfold dist3
  have h : vsub (vadd a (smul3 k w)) a = smul3 k w := by
    unfold vsub vadd smul3
    ext <;> (simp only []; ring)
  rw [h, length3_smul]

theorem length3_vsub_eq_dist3 (a b : vec3f) :
    length3 (vsub b a) = dist3 a b := rfl

theorem dist3_target_vadd_smul (a b : vec3f) (k : ℝ) :
    dist3 b (vadd a (smul3 k (vsub b a))) = |k - 1| * dist3 a b := by
  unfold dist3
  have h : vsub (vadd a (smul3 k (vsub b a))) b
      = smul3 (k - 1) (vsub b a) := by
    unfold vsub vadd smul3
    ext <;> (simp only []; ring)
  rw [h, length3_smul]

theorem dist3_between_offsets (a b : vec3f) (k0 k1 : ℝ) :
    dist3 (vadd a (smul3 k0 (vsub b a))) (vadd b (smul3 k1 (vsub b a)))
      = |1 + k1 - k0| * dist3 a b := by
  unfold dist3
  have h : vsub (vadd b (smul3 k1 (vsub b a)))
      (vadd a (smul3 k0 (vsub b a)))
      = smul3 (1 + k1 - k0) (vsub b a) := by
    unfold vsub vadd smul3
    ext <;> (simp only []; ring)
  rw [h, length3_smul]

/-- C3: for two set, non-maximized spheres with nonzero center distance d,
neither containing the other, extend(sphere) produces radius
(d + r0 + r1) / 2 with the center offset from the first center toward the
second by fraction (new_radius - r0) / d, and this is the exact minimal
enclosing sphere of the two: it contains both balls, and any ball
containing both has radius at least (d + r0 + r1) / 2. -/
theorem c3_extend_sphere_minimal (a b : bounding_sphere)
    (h0 : 0 ≤ a.radius) (h1 : 0 ≤ b.radius)
    (hm0 : ¬ maximized a) (hm1 : ¬ maximized b)
    (hd : dist3 a.center b.center ≠ 0)
    (hn1 : a.radius ≤ dist3 a.center b.center + b.radius)
    (hn2 : b.radius ≤ dist3 a.center b.center + a.radius) :
    (extend_sphere a b).radius
      = (dist3 a.center b.center + a.radius + b.radius) / 2 ∧
    (extend_sphere a b).center
      = vadd a.center
          (smul3 (((dist3 a.center b.center + a.radius + b.radius) / 2
              - a.radius) / dist3 a.center b.center)
            (vsub b.center a.center)) ∧
    (∀ p : vec3f, dist3 a.center p ≤ a.radius →
      dist3 (extend_sphere a b).center p
        ≤ (dist3 a.center b.center + a.radius + b.radius) / 2) ∧
    (∀ p : vec3f, dist3 b.center p ≤ b.radius →
      dist3 (extend_sphere a b).center p
        ≤ (dist3 a.center b.center + a.radius + b.radius) / 2) ∧
    (∀ (e : vec3f) (R : ℝ),
      (∀ p : vec3f, dist3 a.center p ≤ a.radius → dist3 e p ≤ R) →
      (∀ p : vec3f, dist3 b.center p ≤ b.radius → dist3 e p ≤ R) →
      (dist3 a.center b.center + a.radius + b.radius) / 2 ≤ R) := by
  have hd0 : 0 < dist3 a.center b.center :=
    lt_of_le_of_ne (dist3_nonneg _ _) (Ne.symm hd)
  have hres : extend_sphere a b
      = { center := vadd a.center
            (smul3 (((dist3 a.center b.center + a.radius + b.radius) / 2
                - a.radius) / dist3 a.center b.center)
              (vsub b.center a.center)),
          radius := (dist3 a.center b.center + a.radius + b.radius) / 2 }
      := by
    unfold extend_sphere
    simp only []
    split_ifs with g1 g2 g3 g4
    · exact absurd g1 (by intro h; linarith)
    · exact absurd g2 (by intro h; linarith)
    · exact absurd g3 (by linarith)
    · exact absurd g4 (by linarith)
    · rfl
  -- the offset fraction and its basic bounds
  have ht0 : 0 ≤ ((dist3 a.center b.center + a.radius + b.radius) / 2
      - a.radius) / dist3 a.center b.center :=
    div_nonneg (by linarith) (le_of_lt hd0)
  have ht1 : ((dist3 a.center b.center + a.radius + b.radius) / 2
      - a.radius) / dist3 a.center b.center ≤ 1 := by
    rw [div_le_one hd0]
    linarith
  have hcta : dist3 a.center (extend_sphere a b).center
      = (dist3 a.center b.center + a.radius + b.radius) / 2 - a.radius := by
    rw [hres]
    simp only []
    rw [dist3_vadd_smul, length3_vsub_eq_dist3, abs_of_nonneg ht0]
    field_simp
    ring
  have hctb : dist3 b.center (extend_sphere a b).center
      = (dist3 a.center b.center + a.radius + b.radius) / 2 - b.radius := by
    rw [hres]
    simp only []
    rw [dist3_target_vadd_smul, abs_of_nonpos (by linarith)]
    field_simp
    ring
  refine ⟨by rw [hres], by rw [hres], ?_, ?_, ?_⟩
  · intro p hp
    have htri := dist3_triangle (extend_sphere a b).center a.center p
    rw [dist3_comm (extend_sphere a b).center a.center] at htri
    linarith [htri, hcta, hp]
  · intro p hp
    have htri := dist3_triangle (extend_sphere a b).center b.center p
    rw [dist3_comm (extend_sphere a b).center b.center] at htri
    linarith [htri, hctb, hp]
  · intro e R hball0 hball1
    -- the two extreme points of the merged diameter
    have hF0 : dist3 a.center
        (vadd a.center (smul3 (-(a.radius / dist3 a.center b.center))
          (vsub b.center a.center))) = a.radius := by
      rw [dist3_vadd_smul, length3_vsub_eq_dist3, abs_neg,
        abs_of_nonneg (div_nonneg h0 (le_of_lt hd0))]
      field_simp
    have hF1 : dist3 b.center
        (vadd b.center (smul3 (b.radius / dist3 a.center b.center)
          (vsub b.center a.center))) = b.radius := by
      rw [dist3_vadd_smul, length3_vsub_eq_dist3,
        abs_of_nonneg (div_nonneg h1 (le_of_lt hd0))]
      field_simp
    have hFF : dist3
        (vadd a.center (smul3 (-(a.radius / dist3 a.center b.center))
          (vsub b.center a.center)))
        (vadd b.center (smul3 (b.radius / dist3 a.center b.center)
          (vsub b.center a.center)))
        = dist3 a.center b.center + a.radius + b.radius := by
      have hq0 : 0 ≤ a.radius / dist3 a.center b.center :=
        div_nonneg h0 (le_of_lt hd0)
      have hq1 : 0 ≤ b.radius / dist3 a.center b.center :=
        div_nonneg h1 (le_of_lt hd0)
      rw [dist3_between_offsets, abs_of_nonneg (by linarith)]
      field_simp
      ring
    have he0 : dist3 e
        (vadd a.center (smul3 (-(a.radius / dist3 a.center b.center))
          (vsub b.center a.center))) ≤ R :=
      hball0 _ (le_of_eq hF0)
    have he1 : dist3 e
        (vadd b.center (smul3 (b.radius / dist3 a.center b.center)
          (vsub b.center a.center))) ≤ R :=
      hball1 _ (le_of_eq hF1)
    have htri := dist3_triangle
      (vadd a.center (smul3 (-(a.radius / dist3 a.center b.center))
        (vsub b.center a.center)))
      e
      (vadd b.center (smul3 (b.radius / dist3 a.center b.center)
        (vsub b.center a.center)))
    rw [hFF, dist3_comm _ e] at htri
    linarith

/-- C3 witness: merging the unit spheres at the origin and at (3,0,0), whose
center distance is 3, yields radius (3 + 1 + 1) / 2. -/
theorem c3_witness :
    (extend_sphere { center := ⟨0, 0, 0⟩, radius := 1 }
      { center := ⟨3, 0, 0⟩, radius := 1 }).radius
      = (dist3 (⟨0, 0, 0⟩ : vec3f) ⟨3, 0, 0⟩ + 1 + 1) / 2 := by
  have hD : dist3 (⟨0, 0, 0⟩ : vec3f) ⟨3, 0, 0⟩ = 3 := by
    unfold dist3 length3 dot3 vsub
    simp only []
    rw [show ((3 : ℝ) - 0) * (3 - 0) + (0 - 0) * (0 - 0) + (0 - 0) * (0 - 0)
      = 3 * 3 by norm_num]
    exact Real.sqrt_mul_self (by norm_num)
  exact (c3_extend_sphere_minimal
    { center := ⟨0, 0, 0⟩, radius := 1 } { center := ⟨3, 0, 0⟩, radius := 1 }
    (by norm_num) (by norm_num)
    (by show (1 : ℝ) ≠ flt_max; unfold flt_max; norm_num)
    (by show (1 : ℝ) ≠ flt_max; unfold flt_max; norm_num)
    (by show dist3 (⟨0, 0, 0⟩ : vec3f) ⟨3, 0, 0⟩ ≠ 0; rw [hD]; norm_num)
    (by show (1 : ℝ) ≤ dist3 (⟨0, 0, 0⟩ : vec3f) ⟨3, 0, 0⟩ + 1
        rw [hD]; norm_num)
    (by show (1 : ℝ) ≤ dist3 (⟨0, 0, 0⟩ : vec3f) ⟨3, 0, 0⟩ + 1
        rw [hD]; norm_num)).1

/- ------------------------------------------------------------------ -/
/- C4: enclose covers every input point (helper development).          -/
/- ------------------------------------------------------------------ -/

theorem scan_min_mem (f : vec3f → ℝ) (l : List vec3f) :
    ∀ p : vec3f, scan_min f p l ∈ p :: l := by
  induction l with
  | nil =>
    intro p
    show p ∈ [p]
    exact List.mem_singleton_self p
  | cons q l ih =>
    intro p
    show scan_min f (if f q < f p then q else p) l ∈ p :: q :: l
    by_cases hc : f q < f p
    · rw [if_pos hc]
      rcases List.mem_cons.1 (ih q) with h1 | h1
      · rw [h1]
        exact List.mem_cons_of_mem p (List.mem_cons_self q l)
      · exact List.mem_cons_of_mem p (List.mem_cons_of_mem q h1)
    · rw [if_neg hc]
      rcases List.mem_cons.1 (ih p) with h1 | h1
      · rw [h1]
        exact List.mem_cons_self p _
      · exact List.mem_cons_of_mem p (List.mem_cons_of_mem q h1)

theorem scan_max_mem (f : vec3f → ℝ) (l : List vec3f) :
    ∀ p : vec3f, scan_max f p l ∈ p :: l := by
  induction l with
  | nil =>
    intro p
    show p ∈ [p]
    exact List.mem_singleton_self p
  | cons q l ih =>
    intro p
    show scan_max f (if f q > f p then q else p) l ∈ p :: q :: l
    by_cases hc : f q > f p
    · rw [if_pos hc]
      rcases List.mem_cons.1 (ih q) with h1 | h1
      · rw [h1]
        exact List.mem_cons_of_mem p (List.mem_cons_self q l)
      · exact List.mem_cons_of_mem p (List.mem_cons_of_mem q h1)
    · rw [if_neg hc]
      rcases List.mem_cons.1 (ih p) with h1 | h1
      · rw [h1]
        exact List.mem_cons_self p _
      · exact List.mem_cons_of_mem p (List.mem_cons_of_mem q h1)

theorem extend_point_of_maximized (s : bounding_sphere) (p : vec3f)
    (h : maximized s) : extend_point s p = s := by
  unfold extend_point
  rw [if_pos h]

/-- After extending a set, non-maximized sphere by a point, the point lies
within the resulting radius. -/
theorem extend_point_covers (s : bounding_sphere) (p : vec3f)
    (h0 : 0 ≤ s.radius) (hm : ¬ maximized s) :
    dist3 (extend_point s p).center p ≤ (extend_point s p).radius := by
  unfold extend_point
  simp only []
  split_ifs with h1 h2 h3
  · exfalso
    rw [h1] at h0
    linarith
  · rw [show dist3 s.center p = 0 from h2]
    exact h0
  · exact le_of_lt h3
  · have hd0 : 0 < dist3 s.center p :=
      lt_of_le_of_ne (dist3_nonneg _ _) (fun h => h2 h.symm)
    have hne : dist3 s.center p ≠ 0 := ne_of_gt hd0
    have hrd : s.radius ≤ dist3 s.center p := not_lt.1 h3
    have ht1 : ((dist3 s.center p + s.radius) / 2 - s.radius)
        / dist3 s.center p ≤ 1 := by
      rw [div_le_one hd0]
      linarith
    simp only []
    rw [dist3_comm, dist3_target_vadd_smul,
      abs_of_nonpos (by linarith :
        ((dist3 s.center p + s.radius) / 2 - s.radius) / dist3 s.center p
          - 1 ≤ 0)]
    have hkey : -(((dist3 s.center p + s.radius) / 2 - s.radius)
        / dist3 s.center p - 1) * dist3 s.center p
        = (dist3 s.center p + s.radius) / 2 := by
      field_simp
      ring
    rw [hkey]

/-- Extending by a point preserves the containment of any point already
within the sphere. -/
theorem extend_point_preserves (s : bounding_sphere) (p q : vec3f)
    (h0 : 0 ≤ s.radius) (hq : dist3 s.center q ≤ s.radius) :
    dist3 (extend_point s p).center q ≤ (extend_point s p).radius := by
  unfold extend_point
  simp only []
  split_ifs with h1 h2 h3 h4
  · exact hq
  · exfalso
    rw [h2] at h0
    linarith
  · exact hq
  · exact hq
  · have hd0 : 0 < dist3 s.center p :=
      lt_of_le_of_ne (dist3_nonneg _ _) (fun h => h3 h.symm)
    have hrd : s.radius ≤ dist3 s.center p := not_lt.1 h4
    have ht0 : 0 ≤ ((dist3 s.center p + s.radius) / 2 - s.radius)
        / dist3 s.center p := div_nonneg (by linarith) (le_of_lt hd0)
    have hcc : dist3 (vadd s.center
        (smul3 (((dist3 s.center p + s.radius) / 2 - s.radius)
          / dist3 s.center p) (vsub p s.center))) s.center
        = (dist3 s.center p + s.radius) / 2 - s.radius := by
      rw [dist3_comm, dist3_vadd_smul, length3_vsub_eq_dist3,
        abs_of_nonneg ht0]
      field_simp
      ring
    have htri := dist3_triangle (vadd s.center
      (smul3 (((dist3 s.center p + s.radius) / 2 - s.radius)
        / dist3 s.center p) (vsub p s.center))) s.center q
    simp only []
    linarith [htri, hcc, hq]

/-- Extending by a point with norm at most B keeps the center norm at most B
and the radius within [0, 2B], provided the sphere already satisfies these
bounds and 2B is below the FLT_MAX sentinel. -/
theorem extend_point_bounds (s : bounding_sphere) (p : vec3f) (B : ℝ)
    (hc : length3 s.center ≤ B) (h0 : 0 ≤ s.radius)
    (h2B : s.radius ≤ 2 * B) (hp : length3 p ≤ B)
    (hBmax : 2 * B < flt_max) :
    length3 (extend_point s p).center ≤ B ∧
    0 ≤ (extend_point s p).radius ∧
    (extend_point s p).radius ≤ 2 * B := by
  have hm : ¬ maximized s := by
    intro h
    rw [maximized] at h
    rw [h] at h2B
    linarith
  unfold extend_point
  simp only []
  split_ifs with h1 h2 h3
  · exfalso
    rw [h1] at h0
    linarith
  · exact ⟨hc, h0, h2B⟩
  · exact ⟨hc, h0, h2B⟩
  · have hd0 : 0 < dist3 s.center p :=
      lt_of_le_of_ne (dist3_nonneg _ _) (fun h => h2 h.symm)
    have hrd : s.radius ≤ dist3 s.center p := not_lt.1 h3
    have hdn2B : dist3 s.center p ≤ 2 * B := by
      have := length3_sub_le p s.center
      show length3 (vsub p s.center) ≤ 2 * B
      linarith
    have ht0 : 0 ≤ ((dist3 s.center p + s.radius) / 2 - s.radius)
        / dist3 s.center p := div_nonneg (by linarith) (le_of_lt hd0)
    have ht1 : ((dist3 s.center p + s.radius) / 2 - s.radius)
        / dist3 s.center p ≤ 1 := by
      rw [div_le_one hd0]
      linarith
    refine ⟨?_, by positivity, by
      show (dist3 s.center p + s.radius) / 2 ≤ 2 * B
      linarith⟩
    have hX : vadd s.center
        (smul3 (((dist3 s.center p + s.radius) / 2 - s.radius)
          / dist3 s.center p) (vsub p s.center))
        = vadd (smul3 (1 - ((dist3 s.center p + s.radius) / 2 - s.radius)
            / dist3 s.center p) s.center)
          (smul3 (((dist3 s.center p + s.radius) / 2 - s.radius)
            / dist3 s.center p) p) := by
      unfold vadd smul3 vsub
      ext <;> (simp only []; ring)
    show length3 _ ≤ B
    rw [hX]
    calc length3 _
        ≤ length3 (smul3 (1 - ((dist3 s.center p + s.radius) / 2 - s.radius)
            / dist3 s.center p) s.center)
          + length3 (smul3 (((dist3 s.center p + s.radius) / 2 - s.radius)
            / dist3 s.center p) p) := length3_add_le _ _
      _ = (1 - ((dist3 s.center p + s.radius) / 2 - s.radius)
            / dist3 s.center p) * length3 s.center
          + (((dist3 s.center p + s.radius) / 2 - s.radius)
            / dist3 s.center p) * length3 p := by
          rw [length3_smul, length3_smul, abs_of_nonneg (by linarith),
            abs_of_nonneg ht0]
      _ ≤ B := by
          nlinarith [length3_nonneg s.center, length3_nonneg p]

/-- The invariant of the final extend pass of enclose: bounded points keep
the sphere bounded, every processed point ends up covered, and previously
covered points stay covered. -/
theorem foldl_extend_invariant (B : ℝ) (hBmax : 2 * B < flt_max) :
    ∀ (l : List vec3f) (s : bounding_sphere),
      length3 s.center ≤ B → 0 ≤ s.radius → s.radius ≤ 2 * B →
      (∀ p ∈ l, length3 p ≤ B) →
      (∀ p ∈ l, dist3 (l.foldl extend_point s).center p
        ≤ (l.foldl extend_point s).radius) ∧
      (∀ q : vec3f, dist3 s.center q ≤ s.radius →
        dist3 (l.foldl extend_point s).center q
          ≤ (l.foldl extend_point s).radius) := by
  intro l
  induction l with
  | nil =>
    intro s _ _ _ _
    exact ⟨by simp, fun q hq => hq⟩
  | cons p l ih =>
    intro s hc h0 h2B hall
    have hp : length3 p ≤ B := hall p (List.mem_cons_self p l)
    have hb := extend_point_bounds s p B hc h0 h2B hp hBmax
    have hm : ¬ maximized s := by
      intro h
      rw [maximized] at h
      rw [h] at h2B
      linarith
    have hcov := extend_point_covers s p h0 hm
    have hall' : ∀ q ∈ l, length3 q ≤ B :=
      fun q hq => hall q (List.mem_cons_of_mem p hq)
    obtain ⟨ihcov, ihpres⟩ :=
      ih (extend_point s p) hb.1 hb.2.1 hb.2.2 hall'
    constructor
    · intro q hq
      rcases List.mem_cons.1 hq with h | h
      · subst h
        exact ihpres q hcov
      · exact ihcov q h
    · intro q hq
      exact ihpres q (extend_point_preserves s p q h0 hq)

/-- enclose on a nonempty list seeds the sphere at the midpoint of two
points of the list (the selected extremal pair), with radius the distance
from that midpoint to the origin, and then folds the point merge over the
whole list. -/
theorem enclose_cons_eq (p : vec3f) (rest : List vec3f) :
    ∃ m1 m2 : vec3f, m1 ∈ p :: rest ∧ m2 ∈ p :: rest ∧
      enclose (p :: rest)
        = (p :: rest).foldl extend_point
            { center := smul3 (1 / 2) (vadd m1 m2),
              radius := length3 (smul3 (1 / 2) (vadd m1 m2)) } := by
  unfold enclose
  simp only []
  split_ifs with h1 h2 h3
  · exact ⟨scan_min vec3f.z p rest, scan_max vec3f.z p rest,
      scan_min_mem _ _ _, scan_max_mem _ _ _, rfl⟩
  · exact ⟨scan_min vec3f.y p rest, scan_max vec3f.y p rest,
      scan_min_mem _ _ _, scan_max_mem _ _ _, rfl⟩
  · exact ⟨scan_min vec3f.z p rest, scan_max vec3f.z p rest,
      scan_min_mem _ _ _, scan_max_mem _ _ _, rfl⟩
  · exact ⟨scan_min vec3f.x p rest, scan_max vec3f.x p rest,
      scan_min_mem _ _ _, scan_max_mem _ _ _, rfl⟩

/-- C4 (amended): for every non-empty list of points whose norms are
bounded by some B with 2B below the FLT_MAX sentinel, after enclose the
resulting sphere encloses every point of the list: the distance from the
final center to each input point is at most the final radius. -/
theorem c4_enclose_covers (points : List vec3f) (B : ℝ)
    (hne : points ≠ []) (hB : ∀ p ∈ points, length3 p ≤ B)
    (hBmax : 2 * B < flt_max) :
    ∀ p ∈ points,
      dist3 (enclose points).center p ≤ (enclose points).radius := by
  cases points with
  | nil => exact absurd rfl hne
  | cons p rest =>
    obtain ⟨m1, m2, hm1, hm2, heq⟩ := enclose_cons_eq p rest
    have hB0 : 0 ≤ B :=
      le_trans (length3_nonneg p) (hB p (List.mem_cons_self p rest))
    have hcB : length3 (smul3 (1 / 2) (vadd m1 m2)) ≤ B := by
      rw [length3_smul, abs_of_nonneg (by norm_num : (0 : ℝ) ≤ 1 / 2)]
      have hadd := length3_add_le m1 m2
      have h1 := hB m1 hm1
      have h2 := hB m2 hm2
      linarith
    have hr2B : length3 (smul3 (1 / 2) (vadd m1 m2)) ≤ 2 * B := by
      linarith
    rw [heq]
    exact (foldl_extend_invariant B hBmax (p :: rest)
      { center := smul3 (1 / 2) (vadd m1 m2),
        radius := length3 (smul3 (1 / 2) (vadd m1 m2)) }
      hcB (length3_nonneg _) hr2B hB).1

/-- C4 witness: for the two points (0,0,0) and (1,0,0), whose norms are at
most 1, the enclosing sphere covers the point (1,0,0). -/
theorem c4_witness :
    dist3 (enclose [⟨0, 0, 0⟩, ⟨1, 0, 0⟩]).center ⟨1, 0, 0⟩
      ≤ (enclose [⟨0, 0, 0⟩, ⟨1, 0, 0⟩]).radius := by
  have l0 : length3 (⟨0, 0, 0⟩ : vec3f) = 0 := by
    unfold length3 dot3
    simp only []
    rw [show (0 : ℝ) * 0 + 0 * 0 + 0 * 0 = 0 by norm_num]
    exact Real.sqrt_zero
  have l1 : length3 (⟨1, 0, 0⟩ : vec3f) = 1 := by
    unfold length3 dot3
    simp only []
    rw [show (1 : ℝ) * 1 + 0 * 0 + 0 * 0 = 1 by norm_num]
    exact Real.sqrt_one
  exact c4_enclose_covers [⟨0, 0, 0⟩, ⟨1, 0, 0⟩] 1
    (by simp)
    (by
      intro q hq
      rcases List.mem_cons.1 hq with h | h
      · rw [h, l0]; norm_num
      · rw [List.mem_singleton.1 h, l1])
    (by unfold flt_max; norm_num)
    ⟨1, 0, 0⟩
    (by simp)

/-- C4 counterexample: for the points (FLT_MAX, -FLT_MAX, 0),
(FLT_MAX, FLT_MAX, 0) and (-1, 0, 0), the seed sphere's radius (the
distance from the extremal-pair midpoint (FLT_MAX, 0, 0) to the origin)
is exactly the FLT_MAX sentinel, so the final extend pass is a no-op on a
sphere regarded as maximized, and the point (-1,0,0), at distance
FLT_MAX + 1 from the center, is left uncovered. -/
theorem c4_counterexample :
    (⟨-1, 0, 0⟩ : vec3f) ∈ ([⟨flt_max, -flt_max, 0⟩, ⟨flt_max, flt_max, 0⟩,
      ⟨-1, 0, 0⟩] : List vec3f) ∧
    ¬ (dist3 (enclose [⟨flt_max, -flt_max, 0⟩, ⟨flt_max, flt_max, 0⟩,
        ⟨-1, 0, 0⟩]).center ⟨-1, 0, 0⟩
      ≤ (enclose [⟨flt_max, -flt_max, 0⟩, ⟨flt_max, flt_max, 0⟩,
        ⟨-1, 0, 0⟩]).radius) := by
  have s1 : scan_min vec3f.x ⟨flt_max, -flt_max, 0⟩
      [⟨flt_max, flt_max, 0⟩, ⟨-1, 0, 0⟩] = ⟨-1, 0, 0⟩ := by
    unfold scan_min
    simp only [List.foldl_cons, List.foldl_nil]
    norm_num [flt_max]
  have s2 : scan_min vec3f.y ⟨flt_max, -flt_max, 0⟩
      [⟨flt_max, flt_max, 0⟩, ⟨-1, 0, 0⟩] = ⟨flt_max, -flt_max, 0⟩ := by
    unfold scan_min
    simp only [List.foldl_cons, List.foldl_nil]
    norm_num [flt_max]
  have s3 : scan_min vec3f.z ⟨flt_max, -flt_max, 0⟩
      [⟨flt_max, flt_max, 0⟩, ⟨-1, 0, 0⟩] = ⟨flt_max, -flt_max, 0⟩ := by
    unfold scan_min
    simp only [List.foldl_cons, List.foldl_nil]
    norm_num [flt_max]
  have s4 : scan_max vec3f.x ⟨flt_max, -flt_max, 0⟩
      [⟨flt_max, flt_max, 0⟩, ⟨-1, 0, 0⟩] = ⟨flt_max, -flt_max, 0⟩ := by
    unfold scan_max
    simp only [List.foldl_cons, List.foldl_nil]
    norm_num [flt_max]
  have s5 : scan_max vec3f.y ⟨flt_max, -flt_max, 0⟩
      [⟨flt_max, flt_max, 0⟩, ⟨-1, 0, 0⟩] = ⟨flt_max, flt_max, 0⟩ := by
    unfold scan_max
    simp only [List.foldl_cons, List.foldl_nil]
    norm_num [flt_max]
  have s6 : scan_max vec3f.z ⟨flt_max, -flt_max, 0⟩
      [⟨flt_max, flt_max, 0⟩, ⟨-1, 0, 0⟩] = ⟨flt_max, -flt_max, 0⟩ := by
    unfold scan_max
    simp only [List.foldl_cons, List.foldl_nil]
    norm_num [flt_max]
  have hencl : enclose [⟨flt_max, -flt_max, 0⟩, ⟨flt_max, flt_max, 0⟩,
      ⟨-1, 0, 0⟩] = { center := ⟨flt_max, 0, 0⟩, radius := flt_max } := by
    unfold enclose
    simp only []
    rw [s1, s2, s3, s4, s5, s6]
    have hyx : dot3 (vsub ⟨flt_max, flt_max, 0⟩ ⟨flt_max, -flt_max, 0⟩)
          (vsub ⟨flt_max, flt_max, 0⟩ ⟨flt_max, -flt_max, 0⟩)
        > dot3 (vsub ⟨flt_max, -flt_max, 0⟩ ⟨-1, 0, 0⟩)
          (vsub ⟨flt_max, -flt_max, 0⟩ ⟨-1, 0, 0⟩) := by
      unfold dot3 vsub
      simp only []
      unfold flt_max
      norm_num
    rw [if_pos hyx]
    simp only []
    have hz : ¬ (dot3 (vsub (⟨flt_max, -flt_max, 0⟩ : vec3f)
          ⟨flt_max, -flt_max, 0⟩)
          (vsub (⟨flt_max, -flt_max, 0⟩ : vec3f) ⟨flt_max, -flt_max, 0⟩)
        > dot3 (vsub (⟨flt_max, flt_max, 0⟩ : vec3f) ⟨flt_max, -flt_max, 0⟩)
          (vsub (⟨flt_max, flt_max, 0⟩ : vec3f) ⟨flt_max, -flt_max, 0⟩)) := by
      unfold dot3 vsub
      simp only []
      unfold flt_max
      norm_num
    rw [if_neg hz]
    simp only []
    have hc : smul3 (1 / 2) (vadd ⟨flt_max, -flt_max, 0⟩
        ⟨flt_max, flt_max, 0⟩) = (⟨flt_max, 0, 0⟩ : vec3f) := by
      unfold smul3 vadd
      ext <;> (simp only []; ring)
    rw [hc]
    have hrr : Real.sqrt (dot3 (⟨flt_max, 0, 0⟩ : vec3f)
        ⟨flt_max, 0, 0⟩) = flt_max := by
      unfold dot3
      simp only []
      rw [show flt_max * flt_max + 0 * 0 + 0 * 0 = flt_max * flt_max
        by ring]
      exact Real.sqrt_mul_self (le_of_lt flt_max_pos)
    rw [hrr]
    have hstep : ∀ q : vec3f,
        extend_point { center := ⟨flt_max, 0, 0⟩, radius := flt_max } q
          = { center := ⟨flt_max, 0, 0⟩, radius := flt_max } :=
      fun q => extend_point_of_maximized _ q rfl
    simp only [List.foldl_cons, List.foldl_nil]
    rw [hstep, hstep, hstep]
  constructor
  · simp
  · rw [hencl]
    simp only []
    have hdist : dist3 (⟨flt_max, 0, 0⟩ : vec3f) ⟨-1, 0, 0⟩
        = flt_max + 1 := by
      unfold dist3 length3 dot3 vsub
      simp only []
      rw [show (-1 - flt_max) * (-1 - flt_max) + (0 - 0) * (0 - 0)
          + (0 - 0) * (0 - 0) = (flt_max + 1) * (flt_max + 1) by ring]
      exact Real.sqrt_mul_self (by linarith [flt_max_pos])
    rw [hdist]
    intro hcon
    linarith

end openvrml
